import Mathlib

/-!
Verification of the in-memory polling service (`Poll`, `UserManager`,
`PollsManager`, `PollsMemoryManagement`) as a shallow embedding in Lean.

JavaScript values that matter to the validation code are modelled by
`JsVal` (a string, or any non-string value) and `JsArr` (an array of
`JsVal`, or any non-array value): the source only ever inspects them
through `typeof v === 'string'`, `Array.isArray`, truthiness and
`String.prototype.trim`, and every non-string value fails the `typeof`
test regardless of its truthiness.

JavaScript plain objects used as dictionaries (`Poll.#results`) and
`Map`s (`PollsMemoryManagement.#polls`) are modelled as association
lists in key-insertion order with unique keys; `Set`s are modelled as
lists in insertion order (elements are only added after a membership
check, as in the source).
-/

deriving instance DecidableEq for Except

/-- A JavaScript value as seen by the validation code: a string, or any
non-string value. -/
inductive JsVal where
  | vstr (s : String)
  | vother
deriving DecidableEq, Repr

/-- A JavaScript value in argument position where the code tests
`Array.isArray`: an array of values, or any non-array value. -/
inductive JsArr where
  | arr (l : List JsVal)
  | notArr
deriving DecidableEq, Repr

/-- `String.prototype.trim`: strip leading and trailing whitespace
(modelled over the string's character list, so that it evaluates by
kernel reduction). -/
def jsTrim (s : String) : String :=
  ⟨((s.data.dropWhile Char.isWhitespace).reverse.dropWhile
      Char.isWhitespace).reverse⟩

/-! ### Association lists (JS object / `Map` semantics) -/

/-- `obj[k] = v` / `Map.set`: overwrite the binding in place if the key is
present, append it otherwise. -/
def alSet {α : Type} : List (String × α) → String → α → List (String × α)
  | [], k, v => [(k, v)]
  | (k0, v0) :: rest, k, v =>
      if k0 = k then (k0, v) :: rest else (k0, v0) :: alSet rest k v

/-- `obj[k]` / `Map.get`: value at the first binding of `k`, if any. -/
def alGet {α : Type} (l : List (String × α)) (k : String) : Option α :=
  (l.find? (fun kv => kv.1 == k)).map (·.2)

/-- `Map.delete`: remove the first binding of `k`. -/
def alErase {α : Type} : List (String × α) → String → List (String × α)
  | [], _ => []
  | (k0, v0) :: rest, k =>
      if k0 = k then rest else (k0, v0) :: alErase rest k

/-- The keys of an association list, in order. -/
def alKeys {α : Type} (l : List (String × α)) : List String :=
  l.map Prod.fst

/-- `results[option] += 1`: increment the value at the first binding of `k`. -/
def alIncr : List (String × Nat) → String → List (String × Nat)
  | [], _ => []
  | (k0, v0) :: rest, k =>
      if k0 = k then (k0, v0 + 1) :: rest else (k0, v0) :: alIncr rest k

/-- Sum of all values of the tally object. -/
def objSum (m : List (String × Nat)) : Nat :=
  (m.map Prod.snd).sum

/-- The constructor loop `for (const option of options) results[option] = 0`. -/
def objInit (opts : List String) : List (String × Nat) :=
  opts.foldl (fun m o => alSet m o 0) []

/-! ### The `Poll` entity (src/models/Poll.js) -/

/-- State of a `Poll` instance: its private fields. `voters` is the
insertion-order list of the `Set<string>` of usernames. -/
structure Poll where
  uuid : String
  question : String
  options : List String
  totalVotes : Nat
  results : List (String × Nat)
  creator : String
  voters : List String
deriving DecidableEq, Repr

/-- Errors thrown by the `Poll` constructor (all `TypeError` in the source). -/
inductive CtorErr where
  | questionNotText
  | optionsNotTextArray
  | creatorEmpty
deriving DecidableEq, Repr

/-- `options.every(opt => typeof opt === 'string')`, extracting the strings. -/
def asStrings : List JsVal → Option (List String)
  | [] => some []
  | .vstr s :: rest => (asStrings rest).map (s :: ·)
  | .vother :: _ => none

/-- The `Poll` constructor. `uuid` stands for the fresh `uuidv4()` value,
passed in explicitly to keep the embedding deterministic. Checks, in source
order: `question` is a string; `options` is an array of strings; `creator`
is a non-empty (post-trim) string. Then initialises every option's tally
to zero. -/
def pollNew (uuid : String) (question : JsVal) (options : JsArr)
    (creator : JsVal) : Except CtorErr Poll :=
  match question with
  | .vother => .error .questionNotText
  | .vstr q =>
    match options with
    | .notArr => .error .optionsNotTextArray
    | .arr l =>
      match asStrings l with
      | none => .error .optionsNotTextArray
      | some opts =>
        match creator with
        | .vother => .error .creatorEmpty
        | .vstr c =>
          if jsTrim c = "" then .error .creatorEmpty
          else .ok { uuid := uuid, question := jsTrim q, options := opts,
                     totalVotes := 0, results := objInit opts,
                     creator := c, voters := [] }

/-- Errors thrown by `Poll.vote`: `RangeError` for a bad index, a generic
`Error` (the spec's ConflictError) for a duplicate voter. -/
inductive VoteErr where
  | rangeError
  | conflictError
deriving DecidableEq, Repr

/-- `Poll.vote(optionIndex, username)`. The index argument is `some n`
when the caller passed the integer JS number `n`, and `none` for any
non-number or non-integer number (those fail the `typeof`/`Number.isInteger`
guards). All checks precede every mutation in the source, so the error
branches return before any field is written. -/
def Poll.vote (p : Poll) (optionIndex : Option Int) (username : String) :
    Except VoteErr Poll :=
  match optionIndex with
  | none => .error .rangeError
  | some n =>
    if n < 0 ∨ (p.options.length : Int) ≤ n then .error .rangeError
    else if username ∈ p.voters then .error .conflictError
    else
      let option := p.options.getD n.toNat ""
      .ok { p with results := alIncr p.results option,
                   totalVotes := p.totalVotes + 1,
                   voters := p.voters ++ [username] }

/-- The state of the poll after a `vote` call: the updated state on
success, the unchanged state when the call threw. -/
def Poll.voteRun (p : Poll) (optionIndex : Option Int) (username : String) :
    Poll :=
  match p.vote optionIndex username with
  | .ok p2 => p2
  | .error _ => p

/-! ### The user registry (src/services/UserManager.js) -/

/-- Errors thrown by `UserManager.createUser`. -/
inductive UserErr where
  | validation
  | conflict
deriving DecidableEq, Repr

/-- The registry state: the insertion-order list of the `Set<string>` of
usernames. -/
abbrev Users := List String

/-- `UserManager.createUser(username)`: validation (`typeof` string and
non-empty after trim), then exact-match uniqueness against the set, then
`Set.add` of the *untrimmed* string. -/
def createUser (users : Users) (username : JsVal) : Except UserErr Users :=
  match username with
  | .vother => .error .validation
  | .vstr s =>
    if jsTrim s = "" then .error .validation
    else if s ∈ users then .error .conflict
    else .ok (users ++ [s])

/-- Registry state after a `createUser` call (unchanged when it threw). -/
def createUserRun (users : Users) (username : JsVal) : Users :=
  match createUser users username with
  | .ok u2 => u2
  | .error _ => users

/-- `UserManager.userExists(username)`: exact `Set.has` lookup. -/
def userExists (users : Users) (username : String) : Bool :=
  users.contains username

/-- `UserManager.getAllUsers()`: `Array.from(set).sort()`, i.e. the
members in a fresh array, sorted lexicographically. -/
def getAllUsers (users : Users) : List String :=
  List.insertionSort (fun a b => a ≤ b) users

/-! ### Store and service layer
(src/repositories/PollsMemoryManagement.js, src/services/PollsManager.js) -/

/-- The repository state: the `Map<string, Poll>` keyed by poll uuid. -/
abbrev Store := List (String × Poll)

/-- Errors thrown by `PollsManager.createPoll`: its two own validation
errors, or one propagated from the `Poll` constructor. -/
inductive CreateErr where
  | emptyQuestion
  | badOptions
  | ctorErr (e : CtorErr)
deriving DecidableEq, Repr

/-- The test `typeof v === 'string' && v.trim()` (a string whose trimmed
form is non-empty). This is the element check of `createPoll`'s
`options.every(...)`, and also the spec's notion of "non-empty text". -/
def nonEmptyText : JsVal → Bool
  | .vstr s => !(jsTrim s == "")
  | .vother => false

/-- The check `!question || typeof question !== 'string' ||
question.trim().length === 0` in `createPoll`. A non-string value fails
the `typeof` test whatever its truthiness. -/
def qInvalid : JsVal → Bool
  | .vstr s => s == "" || jsTrim s == ""
  | .vother => true

/-- The check `!Array.isArray(options) || options.length < 2 ||
!options.every(opt => typeof opt === 'string' && opt.trim())` in
`createPoll`. -/
def optsInvalid : JsArr → Bool
  | .notArr => true
  | .arr l => l.length < 2 || !(l.all nonEmptyText)

/-- Stated from the spec's words, for comparison with the code's checks:
"options is a sequence of at least two non-empty text values". -/
def optionsValidSpec : JsArr → Bool
  | .arr l => decide (2 ≤ l.length) && l.all nonEmptyText
  | .notArr => false

/-- The validation-and-construction part of `PollsManager.createPoll`:
its two explicit checks, then `new Poll(question, options, creator)`. -/
def createPollR (uuid : String) (question : JsVal) (options : JsArr)
    (creator : JsVal) : Except CreateErr Poll :=
  if qInvalid question then .error .emptyQuestion
  else if optsInvalid options then .error .badOptions
  else
    match pollNew uuid question options creator with
    | .error e => .error (.ctorErr e)
    | .ok p => .ok p

/-- `PollsManager.createPoll` with its repository: construct and then
`addPoll`, i.e. `Map.set(poll.uuid, poll)`. -/
def createPollS (s : Store) (uuid : String) (question : JsVal)
    (options : JsArr) (creator : JsVal) : Except CreateErr (Poll × Store) :=
  match createPollR uuid question options creator with
  | .error e => .error e
  | .ok p => .ok (p, alSet s p.uuid p)

/-- Errors of `PollsManager.vote`: unknown poll id, or one propagated
from `Poll.vote`. -/
inductive VoteMErr where
  | notFound
  | voteErr (e : VoteErr)
deriving DecidableEq, Repr

/-- `PollsManager.vote(pollId, optionIndex, username)`: look the poll up,
throw if absent, else delegate to `Poll.vote`. The in-place mutation of
the stored poll object is rendered by writing the updated poll back at
its key. -/
def voteM (s : Store) (pollId : String) (optionIndex : Option Int)
    (username : String) : Except VoteMErr Store :=
  match alGet s pollId with
  | none => .error .notFound
  | some p =>
    match p.vote optionIndex username with
    | .error e => .error (.voteErr e)
    | .ok p2 => .ok (alSet s pollId p2)

/-- Errors of `PollsManager.getResults` / `deletePoll`. -/
inductive ManagerErr where
  | notFound
  | notCreator
deriving DecidableEq, Repr

/-- `PollsManager.getResults(pollId)`: `{question, totalVotes, results}`
of the stored poll, or a not-found error. -/
def getResults (s : Store) (pollId : String) :
    Except ManagerErr (String × Nat × List (String × Nat)) :=
  match alGet s pollId with
  | none => .error .notFound
  | some p => .ok (p.question, p.totalVotes, p.results)

/-- `PollsManager.deletePoll(pollId, username)`: not-found if absent,
authorization failure unless `username` equals the stored creator, else
`Map.delete`. -/
def deletePollM (s : Store) (pollId : String) (username : String) :
    Except ManagerErr Store :=
  match alGet s pollId with
  | none => .error .notFound
  | some p =>
    if p.creator ≠ username then .error .notCreator
    else .ok (alErase s pollId)

/-- Store state after a `deletePoll` call (unchanged when it threw). -/
def deletePollRun (s : Store) (pollId : String) (username : String) : Store :=
  match deletePollM s pollId username with
  | .ok s2 => s2
  | .error _ => s

/-! ### Reference-semantics model of the `Poll` accessors

The three collection-valued private fields of a `Poll` live on the JS
heap; the getters hand the caller either the internal reference
(`get options`, `get results` return the field itself) or a fresh copy
(`get voters` returns `new Set(this.#voters)`). To state what a caller
can mutate, the heap is explicit: three address-indexed stores, one per
collection kind, and a poll record holding addresses. -/

/-- The JS heap restricted to the collections a `Poll` owns. -/
structure Heap where
  arrays : List (List String)
  objs : List (List (String × Nat))
  sets : List (List String)
deriving DecidableEq, Repr

/-- A `Poll` object whose collection fields are heap addresses. -/
structure PollH where
  uuid : String
  question : String
  optionsRef : Nat
  totalVotes : Nat
  resultsRef : Nat
  creator : String
  votersRef : Nat
deriving DecidableEq, Repr

/-- The `Poll` constructor on the heap model (valid-input path):
`this.#options = [...options]` allocates a fresh array holding a copy of
the argument, `this.#results` a fresh object, `this.#voters` a fresh
empty set. -/
def pollAlloc (h : Heap) (uuid question : String) (options : List String)
    (creator : String) : PollH × Heap :=
  ({ uuid := uuid, question := jsTrim question,
     optionsRef := h.arrays.length, totalVotes := 0,
     resultsRef := h.objs.length, creator := creator,
     votersRef := h.sets.length },
   { arrays := h.arrays ++ [options],
     objs := h.objs ++ [objInit options],
     sets := h.sets ++ [[]] })

/-- `get options() { return this.#options; }`: the internal reference. -/
def optionsGetter (p : PollH) : Nat := p.optionsRef

/-- `get results() { return this.#results; }`: the internal reference. -/
def resultsGetter (p : PollH) : Nat := p.resultsRef

/-- `get voters() { return new Set(this.#voters); }`: allocate a fresh
set holding a copy of the members and return its address. -/
def votersGetter (p : PollH) (h : Heap) : Nat × Heap :=
  (h.sets.length, { h with sets := h.sets ++ [h.sets.getD p.votersRef []] })

/-- A caller mutating an array it was handed: `a[i] = v`. -/
def arrayWrite (h : Heap) (r : Nat) (i : Nat) (v : String) : Heap :=
  { h with arrays := h.arrays.set r ((h.arrays.getD r []).set i v) }

/-- A caller mutating a tally object it was handed: `o[k] = v`. -/
def objWrite (h : Heap) (r : Nat) (k : String) (v : Nat) : Heap :=
  { h with objs := h.objs.set r (alSet (h.objs.getD r []) k v) }

/-- A caller mutating a set it was handed: `s.add(v)`. -/
def setAdd (h : Heap) (r : Nat) (v : String) : Heap :=
  let old := h.sets.getD r []
  { h with sets := h.sets.set r (if v ∈ old then old else old ++ [v]) }

/-- The poll's internal option list, read through its field. -/
def internalOptions (h : Heap) (p : PollH) : List String :=
  h.arrays.getD p.optionsRef []

/-- The poll's internal tally object, read through its field. -/
def internalResults (h : Heap) (p : PollH) : List (String × Nat) :=
  h.objs.getD p.resultsRef []

/-- The poll's internal voter set, read through its field. -/
def internalVoters (h : Heap) (p : PollH) : List String :=
  h.sets.getD p.votersRef []

/-- Whether an `Except` computation succeeded. -/
def exOk {ε α : Type} : Except ε α → Bool
  | .ok _ => true
  | .error _ => false

/-- Forget which error an `Except` computation failed with. -/
def exceptToOption {ε α : Type} : Except ε α → Option α
  | .ok a => some a
  | .error _ => none

/-- The data invariant a `Poll` maintains: the vote counter agrees with
the voter set's size and with the sum of the tally, and every option has
a tally entry. -/
def PollInv (p : Poll) : Prop :=
  p.totalVotes = p.voters.length ∧
  objSum p.results = p.totalVotes ∧
  ∀ o ∈ p.options, o ∈ alKeys p.results

/-- The poll state reached after a sequence of `vote` calls, each call
keeping the previous state when it throws. -/
def runVotes (p : Poll) (calls : List (Option Int × String)) : Poll :=
  calls.foldl (fun q call => q.voteRun call.1 call.2) p

/-! ### Lemmas about the association-list operations -/

theorem alGet_cons {α : Type} (k0 : String) (v0 : α) (rest : List (String × α))
    (k : String) :
    alGet ((k0, v0) :: rest) k = if k0 = k then some v0 else alGet rest k := by
  by_cases h : k0 = k <;> simp [alGet, List.find?_cons, h]

theorem alGet_eq_none_of_not_mem {α : Type} {m : List (String × α)} {k : String}
    (h : k ∉ alKeys m) : alGet m k = none := by
  induction m with
  | nil => rfl
  | cons kv rest ih =>
    obtain ⟨k0, v0⟩ := kv
    simp only [alKeys, List.map_cons, List.mem_cons, not_or] at h
    rw [alGet_cons, if_neg (fun he => h.1 he.symm)]
    exact ih h.2

theorem mem_alKeys_alSet_of_mem {α : Type} {m : List (String × α)} {a : String}
    (k : String) (v : α) (h : a ∈ alKeys m) : a ∈ alKeys (alSet m k v) := by
  induction m with
  | nil => simp [alKeys] at h
  | cons kv rest ih =>
    obtain ⟨k0, v0⟩ := kv
    simp only [alKeys, List.map_cons, List.mem_cons] at h
    rw [alSet]
    by_cases he : k0 = k
    · simpa [he, alKeys] using h
    · rcases h with h | h
      · simp [he, alKeys, h]
      · simp only [if_neg he, alKeys, List.map_cons, List.mem_cons]
        exact Or.inr (ih h)

theorem mem_alKeys_alSet_self {α : Type} (m : List (String × α)) (k : String)
    (v : α) : k ∈ alKeys (alSet m k v) := by
  induction m with
  | nil => simp [alSet, alKeys]
  | cons kv rest ih =>
    obtain ⟨k0, v0⟩ := kv
    rw [alSet]
    by_cases he : k0 = k
    · simp [he, alKeys]
    · simp only [if_neg he, alKeys, List.map_cons, List.mem_cons]
      exact Or.inr ih

theorem mem_alKeys_objInit {opts : List String} {o : String} (h : o ∈ opts) :
    o ∈ alKeys (objInit opts) := by
  suffices hgen : ∀ (m : List (String × Nat)), o ∈ alKeys m ∨ o ∈ opts →
      o ∈ alKeys (opts.foldl (fun m o2 => alSet m o2 0) m) by
    exact hgen [] (Or.inr h)
  clear h
  induction opts with
  | nil => intro m h; simpa using h.resolve_right (by simp)
  | cons x rest ih =>
    intro m h
    rw [List.foldl_cons]
    apply ih
    rcases h with h | h
    · exact Or.inl (mem_alKeys_alSet_of_mem x 0 h)
    · rcases List.mem_cons.mp h with h | h
      · exact Or.inl (h ▸ mem_alKeys_alSet_self m x 0)
      · exact Or.inr h

theorem objSum_eq_zero {m : List (String × Nat)} (h : ∀ kv ∈ m, kv.2 = 0) :
    objSum m = 0 := by
  induction m with
  | nil => rfl
  | cons kv rest ih =>
    simp only [objSum, List.map_cons, List.sum_cons]
    rw [h kv (by simp)]
    simpa [objSum] using ih (fun kv2 h2 => h kv2 (by simp [h2]))

theorem alSet_zero_allZero {m : List (String × Nat)} {k : String}
    (h : ∀ kv ∈ m, kv.2 = 0) : ∀ kv ∈ alSet m k 0, kv.2 = 0 := by
  induction m with
  | nil => simp [alSet]
  | cons kv0 rest ih =>
    obtain ⟨k0, v0⟩ := kv0
    rw [alSet]
    by_cases he : k0 = k
    · simp only [if_pos he]
      intro kv2 h2
      rcases List.mem_cons.mp h2 with h2 | h2
      · simp [h2]
      · exact h kv2 (by simp [h2])
    · simp only [if_neg he]
      intro kv2 h2
      rcases List.mem_cons.mp h2 with h2 | h2
      · exact h kv2 (by simp [h2])
      · exact ih (fun kv3 h3 => h kv3 (by simp [h3])) kv2 h2

theorem objInit_allZero (opts : List String) :
    ∀ kv ∈ objInit opts, kv.2 = 0 := by
  suffices hgen : ∀ (m : List (String × Nat)), (∀ kv ∈ m, kv.2 = 0) →
      ∀ kv ∈ opts.foldl (fun m o2 => alSet m o2 0) m, kv.2 = 0 by
    exact hgen [] (by simp)
  induction opts with
  | nil => intro m h; simpa using h
  | cons x rest ih =>
    intro m h
    rw [List.foldl_cons]
    exact ih (alSet m x 0) (alSet_zero_allZero h)

theorem objSum_objInit (opts : List String) : objSum (objInit opts) = 0 :=
  objSum_eq_zero (objInit_allZero opts)

theorem alKeys_alIncr (m : List (String × Nat)) (k : String) :
    alKeys (alIncr m k) = alKeys m := by
  induction m with
  | nil => rfl
  | cons kv rest ih =>
    obtain ⟨k0, v0⟩ := kv
    rw [alIncr]
    by_cases he : k0 = k
    · simp [he, alKeys]
    · simp only [if_neg he, alKeys, List.map_cons]
      exact congrArg (List.cons k0) ih

theorem objSum_alIncr {m : List (String × Nat)} {k : String}
    (h : k ∈ alKeys m) : objSum (alIncr m k) = objSum m + 1 := by
  induction m with
  | nil => simp [alKeys] at h
  | cons kv rest ih =>
    obtain ⟨k0, v0⟩ := kv
    rw [alIncr]
    by_cases he : k0 = k
    · simp only [if_pos he, objSum, List.map_cons, List.sum_cons]
      omega
    · simp only [alKeys, List.map_cons, List.mem_cons] at h
      rcases h with h | h
      · exact absurd h.symm he
      · simp only [if_neg he, objSum, List.map_cons, List.sum_cons]
        have := ih h
        simp only [objSum] at this
        omega

theorem alGet_alErase_self {α : Type} {s : List (String × α)} {k : String}
    (h : (alKeys s).Nodup) : alGet (alErase s k) k = none := by
  induction s with
  | nil => rfl
  | cons kv rest ih =>
    obtain ⟨k0, v0⟩ := kv
    simp only [alKeys, List.map_cons, List.nodup_cons] at h
    rw [alErase]
    by_cases he : k0 = k
    · exact if_pos he ▸ alGet_eq_none_of_not_mem (he ▸ h.1)
    · rw [if_neg he, alGet_cons, if_neg he]
      exact ih h.2

theorem alGet_alErase_ne {α : Type} (s : List (String × α)) {k k2 : String}
    (h : k2 ≠ k) : alGet (alErase s k) k2 = alGet s k2 := by
  induction s with
  | nil => rfl
  | cons kv rest ih =>
    obtain ⟨k0, v0⟩ := kv
    rw [alErase]
    by_cases he : k0 = k
    · have hne : k0 ≠ k2 := fun h2 => h (h2 ▸ he)
      rw [if_pos he, alGet_cons, if_neg hne]
    · rw [if_neg he, alGet_cons, alGet_cons]
      by_cases he2 : k0 = k2
      · rw [if_pos he2, if_pos he2]
      · rw [if_neg he2, if_neg he2, ih]

/-! ### Lemmas about `Poll.vote` and the poll invariant -/

theorem vote_ok {p : Poll} {n : Int} {u : String}
    (h0 : 0 ≤ n) (h1 : n < (p.options.length : Int)) (h2 : u ∉ p.voters) :
    p.vote (some n) u = .ok { p with
      results := alIncr p.results (p.options.getD n.toNat ""),
      totalVotes := p.totalVotes + 1,
      voters := p.voters ++ [u] } := by
  have hr : ¬(n < 0 ∨ (p.options.length : Int) ≤ n) :=
    not_or.mpr ⟨not_lt.mpr h0, not_le.mpr h1⟩
  simp only [Poll.vote]
  rw [if_neg hr, if_neg h2]

theorem getD_mem_of_lt {l : List String} {n : Int} (h0 : 0 ≤ n)
    (h1 : n < (l.length : Int)) : l.getD n.toNat "" ∈ l := by
  have hn : n.toNat < l.length := by omega
  rw [List.getD_eq_getElem l "" hn]
  exact List.getElem_mem hn

theorem pollInv_pollNew {uuid : String} {q : JsVal} {opts : JsArr}
    {c : JsVal} {p : Poll} (h : pollNew uuid q opts c = .ok p) : PollInv p := by
  cases q with
  | vother => simp [pollNew] at h
  | vstr qs =>
    cases opts with
    | notArr => simp [pollNew] at h
    | arr l =>
      cases hs : asStrings l with
      | none => simp [pollNew, hs] at h
      | some ss =>
        cases c with
        | vother => simp [pollNew, hs] at h
        | vstr cs =>
          by_cases htr : jsTrim cs = ""
          · simp [pollNew, hs, htr] at h
          · simp only [pollNew, hs, if_neg htr, Except.ok.injEq] at h
            subst h
            refine ⟨rfl, ?_, ?_⟩
            · simpa using objSum_objInit ss
            · intro o ho
              exact mem_alKeys_objInit ho

theorem pollInv_voteRun {p : Poll} (h : PollInv p) (pos : Option Int)
    (u : String) : PollInv (p.voteRun pos u) := by
  cases pos with
  | none => simpa [Poll.voteRun, Poll.vote] using h
  | some n =>
    by_cases hr : n < 0 ∨ (p.options.length : Int) ≤ n
    · simpa [Poll.voteRun, Poll.vote, if_pos hr] using h
    · by_cases hv : u ∈ p.voters
      · simpa [Poll.voteRun, Poll.vote, if_neg hr, if_pos hv] using h
      · push_neg at hr
        rw [Poll.voteRun, vote_ok hr.1 hr.2 hv]
        obtain ⟨h1, h2, h3⟩ := h
        refine ⟨?_, ?_, ?_⟩
        · simp [h1]
        · have hk := h3 _ (getD_mem_of_lt hr.1 hr.2)
          show objSum (alIncr p.results (p.options.getD n.toNat "")) =
            p.totalVotes + 1
          rw [objSum_alIncr hk, h2]
        · intro o ho
          rw [alKeys_alIncr]
          exact h3 o ho

theorem pollInv_runVotes {p : Poll} (h : PollInv p)
    (calls : List (Option Int × String)) : PollInv (runVotes p calls) := by
  induction calls generalizing p with
  | nil => simpa [runVotes] using h
  | cons x rest ih =>
    rw [runVotes, List.foldl_cons]
    exact ih (pollInv_voteRun h x.1 x.2)

/-! ### Lemmas about list indexing for the heap model -/

theorem getD_append_lt {α : Type} (l l2 : List α) (d : α) (i : Nat)
    (h : i < l.length) : (l ++ l2).getD i d = l.getD i d := by
  induction l generalizing i with
  | nil => simp at h
  | cons x rest ih =>
    cases i with
    | zero => rfl
    | succ j =>
      simp only [List.cons_append, List.getD_cons_succ]
      exact ih j (by simpa using h)

theorem getD_append_length {α : Type} (l : List α) (x d : α) :
    (l ++ [x]).getD l.length d = x := by
  induction l with
  | nil => rfl
  | cons y rest ih =>
    simp only [List.cons_append, List.length_cons, List.getD_cons_succ]
    exact ih

theorem getD_set_ne {α : Type} (l : List α) (i j : Nat) (v d : α)
    (h : i ≠ j) : (l.set i v).getD j d = l.getD j d := by
  induction l generalizing i j with
  | nil => rfl
  | cons x rest ih =>
    cases i with
    | zero =>
      cases j with
      | zero => exact absurd rfl h
      | succ k => rfl
    | succ i2 =>
      cases j with
      | zero => rfl
      | succ j2 =>
        simp only [List.set_cons_succ, List.getD_cons_succ]
        exact ih i2 j2 (fun he => h (by rw [he]))

/-! ### Lemmas about the `createPoll` validation -/

theorem asStrings_of_all {l : List JsVal} (h : l.all nonEmptyText = true) :
    ∃ ss, asStrings l = some ss := by
  induction l with
  | nil => exact ⟨[], rfl⟩
  | cons x rest ih =>
    simp only [List.all_cons, Bool.and_eq_true] at h
    cases x with
    | vother => simp [nonEmptyText] at h
    | vstr s =>
      obtain ⟨ss, hss⟩ := ih h.2
      exact ⟨s :: ss, by simp [asStrings, hss]⟩

theorem qInvalid_eq (q : JsVal) : qInvalid q = !(nonEmptyText q) := by
  cases q with
  | vother => rfl
  | vstr s =>
    show (s == "" || jsTrim s == "") = !(!(jsTrim s == ""))
    rw [Bool.not_not]
    by_cases h : s = ""
    · subst h; decide
    · have hb : (s == "") = false := by simpa using h
      rw [hb, Bool.false_or]

theorem optsInvalid_eq (o : JsArr) : optsInvalid o = !(optionsValidSpec o) := by
  cases o with
  | notArr => rfl
  | arr l =>
    show (decide (l.length < 2) || !(l.all nonEmptyText)) =
      !(decide (2 ≤ l.length) && l.all nonEmptyText)
    cases hall : l.all nonEmptyText
    · simp
    · simp only [Bool.not_true, Bool.or_false, Bool.and_true, ← decide_not]
      exact decide_eq_decide.mpr Nat.not_le.symm

theorem pollNew_vstr_ok {uuid : String} {s : String} {l : List JsVal}
    {ss : List String} (hss : asStrings l = some ss) (c : JsVal) :
    exOk (pollNew uuid (.vstr s) (.arr l) c) = nonEmptyText c := by
  cases c with
  | vother => simp [pollNew, hss, exOk, nonEmptyText]
  | vstr cs =>
    by_cases h : jsTrim cs = ""
    · simp [pollNew, hss, h, exOk, nonEmptyText]
    · simp [pollNew, hss, h, exOk, nonEmptyText]

/-! ### Helper facts shared by the vote theorems -/

theorem vote_rangeError_of_invalid (p : Poll) (pos : Option Int) (u : String)
    (hinv : ¬ ∃ n, pos = some n ∧ 0 ≤ n ∧ n < (p.options.length : Int)) :
    p.vote pos u = .error .rangeError := by
  cases pos with
  | none => rfl
  | some n =>
    have hr : n < 0 ∨ (p.options.length : Int) ≤ n := by
      by_contra hc
      push_neg at hc
      exact hinv ⟨n, rfl, hc.1, hc.2⟩
    simp only [Poll.vote]
    rw [if_pos hr]

/-! ### The claims -/

/-- C1: for every poll accepted by the `Poll` constructor, after any
sequence of `castVote` calls (successful or failed) `totalVotes` equals
the number of usernames in `voters` and equals the sum of the vote counts
in the tally. -/
theorem vote_sequence_totalVotes_invariant (uuid : String) (q : JsVal)
    (opts : JsArr) (c : JsVal) (p0 : Poll)
    (h : pollNew uuid q opts c = .ok p0)
    (calls : List (Option Int × String)) :
    (runVotes p0 calls).totalVotes = (runVotes p0 calls).voters.length ∧
    (runVotes p0 calls).totalVotes = objSum (runVotes p0 calls).results := by
  obtain ⟨h1, h2, _⟩ := pollInv_runVotes (pollInv_pollNew h) calls
  exact ⟨h1, h2.symm⟩

theorem vote_sequence_totalVotes_invariant_witness :
    pollNew "id" (.vstr "Q") (.arr [.vstr "A", .vstr "B"]) (.vstr "alice") =
      .ok (Poll.mk "id" "Q" ["A", "B"] 0 [("A", 0), ("B", 0)] "alice" []) ∧
    ((runVotes (Poll.mk "id" "Q" ["A", "B"] 0 [("A", 0), ("B", 0)] "alice" [])
        [(some 0, "bob"), (none, "eve"), (some 0, "bob"),
          (some 1, "carol")]).totalVotes =
      (runVotes (Poll.mk "id" "Q" ["A", "B"] 0 [("A", 0), ("B", 0)] "alice" [])
        [(some 0, "bob"), (none, "eve"), (some 0, "bob"),
          (some 1, "carol")]).voters.length ∧
    (runVotes (Poll.mk "id" "Q" ["A", "B"] 0 [("A", 0), ("B", 0)] "alice" [])
        [(some 0, "bob"), (none, "eve"), (some 0, "bob"),
          (some 1, "carol")]).totalVotes =
      objSum (runVotes
        (Poll.mk "id" "Q" ["A", "B"] 0 [("A", 0), ("B", 0)] "alice" [])
        [(some 0, "bob"), (none, "eve"), (some 0, "bob"),
          (some 1, "carol")]).results) :=
  ⟨by decide,
   vote_sequence_totalVotes_invariant "id" (.vstr "Q")
     (.arr [.vstr "A", .vstr "B"]) (.vstr "alice") _ (by decide) _⟩

/-- C2: `castVote(position, voter)` fails with RangeError when the
position is not an integer in `[0, options.length)`; fails with
ConflictError when the voter is already in `voters`; otherwise it
increments the chosen option's tally entry, increments `totalVotes`, and
appends the voter; and a failing call leaves the poll unchanged. -/
theorem vote_characterization (p : Poll) (pos : Option Int) (u : String) :
    ((¬ ∃ n, pos = some n ∧ 0 ≤ n ∧ n < (p.options.length : Int)) →
      p.vote pos u = .error .rangeError) ∧
    (∀ n, pos = some n → 0 ≤ n → n < (p.options.length : Int) →
      u ∈ p.voters → p.vote pos u = .error .conflictError) ∧
    (∀ n, pos = some n → 0 ≤ n → n < (p.options.length : Int) →
      u ∉ p.voters → p.vote pos u = .ok { p with
        results := alIncr p.results (p.options.getD n.toNat ""),
        totalVotes := p.totalVotes + 1,
        voters := p.voters ++ [u] }) ∧
    (∀ e, p.vote pos u = .error e → p.voteRun pos u = p) := by
  refine ⟨vote_rangeError_of_invalid p pos u, ?_, ?_, ?_⟩
  · intro n hn h0 h1 hv
    subst hn
    have hr : ¬(n < 0 ∨ (p.options.length : Int) ≤ n) :=
      not_or.mpr ⟨not_lt.mpr h0, not_le.mpr h1⟩
    simp only [Poll.vote]
    rw [if_neg hr, if_pos hv]
  · intro n hn h0 h1 hv
    subst hn
    exact vote_ok h0 h1 hv
  · intro e he
    simp only [Poll.voteRun]
    rw [he]

theorem vote_characterization_witness :
    (0 : Int) ≤ 1 ∧
    (1 : Int) <
      (((Poll.mk "id" "Q" ["A", "B"] 0 [("A", 0), ("B", 0)] "alice"
          []).options.length : Int)) ∧
    "bob" ∉ (Poll.mk "id" "Q" ["A", "B"] 0 [("A", 0), ("B", 0)] "alice"
      []).voters ∧
    (Poll.mk "id" "Q" ["A", "B"] 0 [("A", 0), ("B", 0)] "alice" []).vote
        (some 1) "bob" =
      .ok (Poll.mk "id" "Q" ["A", "B"] 1 [("A", 0), ("B", 1)] "alice"
        ["bob"]) := by
  refine ⟨by decide, by decide, by decide, ?_⟩
  have h := (vote_characterization
    (Poll.mk "id" "Q" ["A", "B"] 0 [("A", 0), ("B", 0)] "alice" [])
    (some 1) "bob").2.2.1 1 rfl (by decide) (by decide) (by decide)
  rw [h]
  decide

/-- C3 counterexample: the claim "mutating any value returned by an
accessor leaves the poll's internal state unchanged" is false — the
`options` getter returns the internal array itself, so writing index 0 of
the returned array changes the poll's internal option list from
`["A", "B"]` to `["X", "B"]`. -/
theorem accessors_return_copies_cex :
    internalOptions
        (arrayWrite (pollAlloc ⟨[], [], []⟩ "id" "Q" ["A", "B"] "alice").2
          (optionsGetter (pollAlloc ⟨[], [], []⟩ "id" "Q" ["A", "B"]
            "alice").1) 0 "X")
        (pollAlloc ⟨[], [], []⟩ "id" "Q" ["A", "B"] "alice").1 =
      ["X", "B"] ∧
    internalOptions (pollAlloc ⟨[], [], []⟩ "id" "Q" ["A", "B"] "alice").2
        (pollAlloc ⟨[], [], []⟩ "id" "Q" ["A", "B"] "alice").1 =
      ["A", "B"] := by
  decide

/-- C3 (amended): the `voters` getter returns a fresh copy — a distinct
reference with the same members, and mutating it leaves the internal
voter set unchanged — while the `options` and `results` getters return
the internal references themselves, so mutations through them are
mutations of the poll's internal state. -/
theorem voters_copy_options_results_alias (h : Heap) (p : PollH)
    (v : String) (href : p.votersRef < h.sets.length) :
    optionsGetter p = p.optionsRef ∧
    resultsGetter p = p.resultsRef ∧
    (votersGetter p h).1 ≠ p.votersRef ∧
    (votersGetter p h).2.sets.getD (votersGetter p h).1 [] =
      internalVoters h p ∧
    internalVoters (votersGetter p h).2 p = internalVoters h p ∧
    internalVoters (setAdd (votersGetter p h).2 (votersGetter p h).1 v) p =
      internalVoters h p := by
  refine ⟨rfl, rfl, Nat.ne_of_gt href, ?_, ?_, ?_⟩
  · show (h.sets ++ [h.sets.getD p.votersRef []]).getD h.sets.length [] = _
    rw [getD_append_length]
    rfl
  · simp only [internalVoters, votersGetter]
    exact getD_append_lt _ _ _ _ href
  · simp only [internalVoters, votersGetter, setAdd]
    rw [getD_set_ne _ _ _ _ _ (Nat.ne_of_gt href)]
    exact getD_append_lt _ _ _ _ href

theorem voters_copy_options_results_alias_witness :
    (PollH.mk "id" "Q" 0 0 0 "alice" 0).votersRef <
      (Heap.mk [["A", "B"]] [[("A", 0), ("B", 0)]] [["bob"]]).sets.length ∧
    internalVoters
        (setAdd
          (votersGetter (PollH.mk "id" "Q" 0 0 0 "alice" 0)
            (Heap.mk [["A", "B"]] [[("A", 0), ("B", 0)]] [["bob"]])).2
          (votersGetter (PollH.mk "id" "Q" 0 0 0 "alice" 0)
            (Heap.mk [["A", "B"]] [[("A", 0), ("B", 0)]] [["bob"]])).1
          "mallory")
        (PollH.mk "id" "Q" 0 0 0 "alice" 0) =
      internalVoters (Heap.mk [["A", "B"]] [[("A", 0), ("B", 0)]] [["bob"]])
        (PollH.mk "id" "Q" 0 0 0 "alice" 0) :=
  ⟨by decide,
   (voters_copy_options_results_alias
     (Heap.mk [["A", "B"]] [[("A", 0), ("B", 0)]] [["bob"]])
     (PollH.mk "id" "Q" 0 0 0 "alice" 0) "mallory"
     (by decide)).2.2.2.2.2⟩

/-- C4 counterexample: the claim is false of the `Poll` entity's own
constructor, which accepts an empty question (it only checks
`typeof question === 'string'`): constructing with question `""`, two
valid options, and creator `"alice"` succeeds instead of failing with a
ValidationError. -/
theorem poll_construction_validation_cex :
    pollNew "id" (.vstr "") (.arr [.vstr "A", .vstr "B"]) (.vstr "alice") =
      .ok (Poll.mk "id" "" ["A", "B"] 0 [("A", 0), ("B", 0)] "alice" []) := by
  decide

/-- C4 (amended): construction through the service layer
(`PollsManager.createPoll`, which performs the question and options
validation before delegating to the `Poll` constructor, which validates
the creator) fails exactly when the question is not non-empty text, or
the options are not a sequence of at least two non-empty text values, or
the creator is not non-empty text; the bare `Poll` constructor on its own
does not reject an empty question, fewer than two options, or empty
option strings. -/
theorem createPoll_validation (uuid : String) (q : JsVal) (o : JsArr)
    (c : JsVal) :
    exOk (createPollR uuid q o c) =
      (nonEmptyText q && optionsValidSpec o && nonEmptyText c) := by
  cases hq : nonEmptyText q with
  | false =>
    have hqi : qInvalid q = true := by rw [qInvalid_eq, hq]; rfl
    simp [createPollR, hqi, exOk]
  | true =>
    have hqi : qInvalid q = false := by rw [qInvalid_eq, hq]; rfl
    cases ho : optionsValidSpec o with
    | false =>
      have hoi : optsInvalid o = true := by rw [optsInvalid_eq, ho]; rfl
      simp [createPollR, hqi, hoi, exOk]
    | true =>
      have hoi : optsInvalid o = false := by rw [optsInvalid_eq, ho]; rfl
      simp only [createPollR, hqi, hoi, Bool.false_eq_true, if_false,
        Bool.true_and]
      cases q with
      | vother => simp [nonEmptyText] at hq
      | vstr s =>
        cases o with
        | notArr => simp [optionsValidSpec] at ho
        | arr l =>
          have hall : l.all nonEmptyText = true := by
            simp only [optionsValidSpec, Bool.and_eq_true] at ho
            exact ho.2
          obtain ⟨ss, hss⟩ := asStrings_of_all hall
          have hc := @pollNew_vstr_ok uuid s l ss hss c
          cases hp : pollNew uuid (.vstr s) (.arr l) c with
          | error e =>
            rw [hp] at hc
            simp [hp, exOk, ← hc]
          | ok p =>
            rw [hp] at hc
            simp [hp, exOk, ← hc]

/-- C5: `deletePoll(pollId, requester)` fails with NotFoundError when no
poll with `pollId` is stored; fails with AuthorizationError when the
requester differs from the stored creator; otherwise it removes exactly
that poll (its id no longer resolves, every other id resolves as
before); a failing call leaves the store unchanged, so the poll, if
present, remains retrievable. -/
theorem deletePoll_characterization (s : Store) (pollId requester : String)
    (hnd : (alKeys s).Nodup) :
    (alGet s pollId = none →
      deletePollM s pollId requester = .error .notFound) ∧
    (∀ p, alGet s pollId = some p → p.creator ≠ requester →
      deletePollM s pollId requester = .error .notCreator) ∧
    (∀ p, alGet s pollId = some p → p.creator = requester →
      deletePollM s pollId requester = .ok (alErase s pollId) ∧
      alGet (alErase s pollId) pollId = none ∧
      ∀ id2, id2 ≠ pollId → alGet (alErase s pollId) id2 = alGet s id2) ∧
    (∀ e, deletePollM s pollId requester = .error e →
      deletePollRun s pollId requester = s) := by
  refine ⟨?_, ?_, ?_, ?_⟩
  · intro h
    simp [deletePollM, h]
  · intro p hp hc
    simp [deletePollM, hp, hc]
  · intro p hp hc
    refine ⟨?_, alGet_alErase_self hnd,
      fun id2 h2 => alGet_alErase_ne s h2⟩
    simp [deletePollM, hp, hc]
  · intro e he
    simp only [deletePollRun]
    rw [he]

theorem deletePoll_characterization_witness :
    (alKeys [("id1",
      Poll.mk "id1" "Q" ["A", "B"] 0 [("A", 0), ("B", 0)] "alice"
        [])]).Nodup ∧
    alGet [("id1",
        Poll.mk "id1" "Q" ["A", "B"] 0 [("A", 0), ("B", 0)] "alice" [])]
        "id1" =
      some (Poll.mk "id1" "Q" ["A", "B"] 0 [("A", 0), ("B", 0)] "alice"
        []) ∧
    deletePollM [("id1",
        Poll.mk "id1" "Q" ["A", "B"] 0 [("A", 0), ("B", 0)] "alice" [])]
        "id1" "alice" =
      .ok [] ∧
    alGet (alErase [("id1",
        Poll.mk "id1" "Q" ["A", "B"] 0 [("A", 0), ("B", 0)] "alice" [])]
        "id1") "id1" =
      none := by
  have h := (deletePoll_characterization
    [("id1", Poll.mk "id1" "Q" ["A", "B"] 0 [("A", 0), ("B", 0)] "alice"
      [])] "id1" "alice" (by decide)).2.2.1
    (Poll.mk "id1" "Q" ["A", "B"] 0 [("A", 0), ("B", 0)] "alice" [])
    (by decide) rfl
  refine ⟨by decide, by decide, ?_, h.2.1⟩
  rw [h.1]
  decide

/-- C6: `register(name)` fails with ValidationError when the name is not
text or trims to empty; fails with ConflictError when the exact name is
already present (case-sensitive); otherwise it appends the name; and a
failing call leaves the registry membership unchanged. -/
theorem createUser_characterization (users : Users) (v : JsVal) :
    (v = .vother → createUser users v = .error .validation) ∧
    (∀ s, v = .vstr s → jsTrim s = "" →
      createUser users v = .error .validation) ∧
    (∀ s, v = .vstr s → jsTrim s ≠ "" → s ∈ users →
      createUser users v = .error .conflict) ∧
    (∀ s, v = .vstr s → jsTrim s ≠ "" → s ∉ users →
      createUser users v = .ok (users ++ [s])) ∧
    (∀ e, createUser users v = .error e → createUserRun users v = users) := by
  refine ⟨?_, ?_, ?_, ?_, ?_⟩
  · intro h
    subst h
    rfl
  · intro s hs ht
    subst hs
    simp only [createUser]
    rw [if_pos ht]
  · intro s hs ht hm
    subst hs
    simp only [createUser]
    rw [if_neg ht, if_pos hm]
  · intro s hs ht hm
    subst hs
    simp only [createUser]
    rw [if_neg ht, if_neg hm]
  · intro e he
    simp only [createUserRun]
    rw [he]

theorem createUser_characterization_witness :
    jsTrim "alice" ≠ "" ∧ "alice" ∈ (["alice"] : Users) ∧
    createUser ["alice"] (.vstr "alice") = .error .conflict ∧
    createUserRun ["alice"] (.vstr "alice") = ["alice"] := by
  have hc := (createUser_characterization ["alice"] (.vstr "alice")).2.2.1
    "alice" rfl (by decide) (by decide)
  exact ⟨by decide, by decide, hc,
    (createUser_characterization ["alice"] (.vstr "alice")).2.2.2.2
      .conflict hc⟩

/-- C7: creating the poll ("Tea or Coffee?", ["Tea", "Coffee"], "alice"),
voting position 1 as "bob", and calling `getResults` on that poll's id
yields question "Tea or Coffee?", totalVotes 1, and the tally
`Tea ↦ 0, Coffee ↦ 1`. -/
theorem tea_coffee_scenario :
    (exceptToOption (createPollS [] "id1" (.vstr "Tea or Coffee?")
        (.arr [.vstr "Tea", .vstr "Coffee"]) (.vstr "alice"))).bind
      (fun ps => (exceptToOption
          (voteM ps.2 ps.1.uuid (some 1) "bob")).bind
        (fun s2 => exceptToOption (getResults s2 ps.1.uuid))) =
      some ("Tea or Coffee?", 1, [("Tea", 0), ("Coffee", 1)]) := by
  decide

/-- C8: `listAll()` returns all registered names — a permutation of the
registry's membership — in lexicographic order. -/
theorem getAllUsers_sorted_permutation (users : Users) :
    List.Sorted (fun a b : String => a ≤ b) (getAllUsers users) ∧
    List.Perm (getAllUsers users) users :=
  ⟨List.sorted_insertionSort _ users, List.perm_insertionSort _ users⟩

/-- C9: when the position is invalid and the voter has already voted,
`castVote` raises RangeError — the position check precedes the
duplicate-voter check. -/
theorem rangeError_precedes_conflict (p : Poll) (pos : Option Int)
    (u : String)
    (hpos : ¬ ∃ n, pos = some n ∧ 0 ≤ n ∧ n < (p.options.length : Int))
    (_hv : u ∈ p.voters) : p.vote pos u = .error .rangeError :=
  vote_rangeError_of_invalid p pos u hpos

theorem rangeError_precedes_conflict_witness :
    (¬ ∃ n, (none : Option Int) = some n ∧ 0 ≤ n ∧
      n < (((Poll.mk "id" "Q" ["A", "B"] 1 [("A", 1), ("B", 0)] "alice"
        ["bob"]).options.length : Int))) ∧
    "bob" ∈ (Poll.mk "id" "Q" ["A", "B"] 1 [("A", 1), ("B", 0)] "alice"
      ["bob"]).voters ∧
    (Poll.mk "id" "Q" ["A", "B"] 1 [("A", 1), ("B", 0)] "alice"
        ["bob"]).vote none "bob" =
      .error .rangeError :=
  ⟨by simp, by decide,
   rangeError_precedes_conflict
     (Poll.mk "id" "Q" ["A", "B"] 1 [("A", 1), ("B", 0)] "alice" ["bob"])
     none "bob" (by simp) (by decide)⟩

/-- C10: the registry stores and compares the exact string passed to
`register`; trimming is only used for the non-emptiness test, so a name
with surrounding whitespace registers successfully even when its trimmed
form is already present, the two are distinct entries, and `exists`
matches only the exact untrimmed string. -/
theorem untrimmed_username_registration (users : Users) (s : String)
    (h1 : jsTrim s ∈ users) (h2 : s ∉ users) (h3 : jsTrim s ≠ "") :
    createUser users (.vstr s) = .ok (users ++ [s]) ∧
    s ≠ jsTrim s ∧
    userExists users s = false ∧
    userExists users (jsTrim s) = true ∧
    userExists (users ++ [s]) s = true ∧
    userExists (users ++ [s]) (jsTrim s) = true := by
  have hne : s ≠ jsTrim s := fun he => h2 (he ▸ h1)
  refine ⟨?_, hne, ?_, ?_, ?_, ?_⟩
  · simp only [createUser]
    rw [if_neg h3, if_neg h2]
  · simpa [userExists] using h2
  · simpa [userExists] using h1
  · simp [userExists]
  · simp [userExists, h1]

theorem untrimmed_username_registration_witness :
    jsTrim " alice" ∈ (["alice"] : Users) ∧
    " alice" ∉ (["alice"] : Users) ∧ jsTrim " alice" ≠ "" ∧
    createUser ["alice"] (.vstr " alice") = .ok ["alice", " alice"] ∧
    userExists ["alice", " alice"] " alice" = true ∧
    userExists ["alice"] " alice" = false := by
  have h := untrimmed_username_registration ["alice"] " alice"
    (by decide) (by decide) (by decide)
  exact ⟨by decide, by decide, by decide, h.1, h.2.2.2.2.1, h.2.2.1⟩
